import Mathlib

/-!
Verification of the parametric_stellarator source-mesh engine.

This file gives a shallow embedding, in Lean 4, of the structured-mesh
generation and quadrature-integration engine of the repository:

* the five-point quadrature integrator `SourceMesh._source_strength`
  (src/parastell/source_mesh.py, lines 271-316);
* the vertex indexer `SourceMesh._get_vertex_id` (lines 339-371);
* the cell decomposers `_create_tets_from_hex` (lines 373-432) and
  `_create_tets_from_wedge` (lines 434-484);
* the mesh assembler `SourceMesh.create_mesh` (lines 486-505);
* the grid sampler `SourceMesh.create_vertices` (lines 217-269);
* the validating property setters `cfs_grid`, `poloidal_grid`,
  `toroidal_grid` (lines 139-179);
* the attribute usage of the `SourceMesh` class as a whole.

Floating-point values are modelled as exact rationals (for the purely
arithmetic integrator) or reals (for the angle conversions, which involve
pi).  Machine floats enter nothing here that overflows or rounds in a way
the claims depend on.
-/

/-! ## Quadrature integrator: `SourceMesh._source_strength` -/

/-- A 3-component Cartesian vector, one row of the `coords` array. -/
structure Vec3 where
  x : ℚ
  y : ℚ
  z : ℚ

/-- Componentwise difference of two vectors (`np.subtract` on rows). -/
def vsub (a b : Vec3) : Vec3 :=
  ⟨a.x - b.x, a.y - b.y, a.z - b.z⟩

/-- Determinant of the 3 x 3 matrix whose COLUMNS are `c0, c1, c2`.
`_source_strength` builds `edge_vectors` as
`np.subtract(tet_coords[:3], tet_coords[3]).T`, whose columns are the
edge vectors, and then takes `np.linalg.det` of it (lines 310-312). -/
def det3 (c0 c1 c2 : Vec3) : ℚ :=
  c0.x * (c1.y * c2.z - c1.z * c2.y)
    - c1.x * (c0.y * c2.z - c0.z * c2.y)
    + c2.x * (c0.y * c1.z - c0.z * c1.y)

/-- Determinant of the 3 x 3 matrix whose ROWS are `r0, r1, r2`; this is the
reading of the spec's "matrix of edge vectors `(p0-p3, p1-p3, p2-p3)`"
with one edge vector per row. -/
def det3Rows (r0 r1 r2 : Vec3) : ℚ :=
  r0.x * (r1.y * r2.z - r1.z * r2.y)
    - r0.y * (r1.x * r2.z - r1.z * r2.x)
    + r0.z * (r1.x * r2.y - r1.y * r2.x)

/-- Core of `SourceMesh._source_strength` (lines 292-316), with the four
vertex positions and the four vertex source-density samples already looked
up.  The barycentric matrix `bary_coords`, the weights `int_w`, the two
`np.dot` products, the edge-vector determinant and the final products are
transcribed term by term; `ssInt0 .. ssInt4` are the five entries of
`ss_int_pts = np.dot(bary_coords, vertex_strengths)`.  Returns the pair
`(ss, tet_vol)` exactly as the method does. -/
def sourceStrengthCore (p0 p1 p2 p3 : Vec3) (f0 f1 f2 f3 : ℚ) : ℚ × ℚ :=
  let ssInt0 := 0.25 * f0 + 0.25 * f1 + 0.25 * f2 + 0.25 * f3
  let ssInt1 := 0.5 * f0 + 1/6 * f1 + 1/6 * f2 + 1/6 * f3
  let ssInt2 := 1/6 * f0 + 0.5 * f1 + 1/6 * f2 + 1/6 * f3
  let ssInt3 := 1/6 * f0 + 1/6 * f1 + 0.5 * f2 + 1/6 * f3
  let ssInt4 := 1/6 * f0 + 1/6 * f1 + 1/6 * f2 + 0.5 * f3
  let tetVol := -(det3 (vsub p0 p3) (vsub p1 p3) (vsub p2 p3)) / 6
  let ss := |tetVol| *
    (-0.8 * ssInt0 + 0.45 * ssInt1 + 0.45 * ssInt2 + 0.45 * ssInt3 + 0.45 * ssInt4)
  (ss, tetVol)

/-- A tetrahedron as the ordered 4-tuple of vertex ids handed to
`_create_tet` / `_source_strength`. -/
abbrev Tet := ℕ × ℕ × ℕ × ℕ

/-- Full `SourceMesh._source_strength` (lines 271-316): looks the vertex
positions up in `coords`, the flux labels up in `coords_s`, evaluates the
source-density field there and calls the quadrature core.  `density` is
the composition `reaction_rate(*plasma_conditions(s))` of line 288,
treated as one pluggable function of the flux label. -/
def sourceStrength (coords : ℕ → Vec3) (coordsS : ℕ → ℚ) (density : ℚ → ℚ)
    (t : Tet) : ℚ × ℚ :=
  sourceStrengthCore (coords t.1) (coords t.2.1) (coords t.2.2.1) (coords t.2.2.2)
    (density (coordsS t.1)) (density (coordsS t.2.1))
    (density (coordsS t.2.2.1)) (density (coordsS t.2.2.2))

/-! Spec-side description of the quadrature rule (spec section 4.4), stated
independently of the transcription above so that the two can be compared. -/

/-- The five barycentric quadrature points of the spec, each with its
weight: the centroid with weight -0.8, and four points placing 0.5 on one
vertex and 1/6 on the other three, each with weight 0.45. -/
def specQuadPoints : List (ℚ × (ℚ × ℚ × ℚ × ℚ)) :=
  [(-0.8, (0.25, 0.25, 0.25, 0.25)),
   (0.45, (0.5, 1/6, 1/6, 1/6)),
   (0.45, (1/6, 0.5, 1/6, 1/6)),
   (0.45, (1/6, 1/6, 0.5, 1/6)),
   (0.45, (1/6, 1/6, 1/6, 0.5))]

/-- Barycentric-weighted combination of the four vertex samples at one
quadrature point. -/
def baryInterp (b : ℚ × ℚ × ℚ × ℚ) (f0 f1 f2 f3 : ℚ) : ℚ :=
  b.1 * f0 + b.2.1 * f1 + b.2.2.1 * f2 + b.2.2.2 * f3

/-- The spec's unsigned tetrahedron volume: the absolute value of the
determinant of the edge-vector matrix divided by 6. -/
def unsignedVolume (p0 p1 p2 p3 : Vec3) : ℚ :=
  |det3Rows (vsub p0 p3) (vsub p1 p3) (vsub p2 p3) / 6|

/-- Transpose invariance of the explicit 3 x 3 determinant. -/
lemma det3_eq_det3Rows (a b c : Vec3) : det3 a b c = det3Rows a b c := by
  unfold det3 det3Rows; ring

/-- Claim C5: for any four vertex positions and four vertex density
samples, the integrated strength returned by `_source_strength` equals the
unsigned tetrahedron volume times the weighted sum, over the spec's five
barycentric quadrature points, of the barycentric interpolations of the
four samples. -/
theorem c5_quadrature_rule (p0 p1 p2 p3 : Vec3) (f0 f1 f2 f3 : ℚ) :
    (sourceStrengthCore p0 p1 p2 p3 f0 f1 f2 f3).1 =
      unsignedVolume p0 p1 p2 p3 *
        (specQuadPoints.map (fun wb => wb.1 * baryInterp wb.2 f0 f1 f2 f3)).sum := by
  unfold sourceStrengthCore unsignedVolume specQuadPoints baryInterp
  simp only [List.map_cons, List.map_nil, List.sum_cons, List.sum_nil]
  rw [show det3 (vsub p0 p3) (vsub p1 p3) (vsub p2 p3)
        = det3Rows (vsub p0 p3) (vsub p1 p3) (vsub p2 p3) from
      det3_eq_det3Rows _ _ _]
  rw [neg_div, abs_neg]
  congr 1
  ring

/-- Claim C6 counterexample: at the concrete vertex positions
p0 = (1,0,0), p1 = (0,1,0), p2 = (0,0,1), p3 = (0,0,0) the second element
of the integrator's result (the value recorded in the parallel volume
array) is -1/6, which is not the unsigned volume 1/6; so the output volume
is not the absolute value of the edge-matrix determinant over 6. -/
theorem c6_counterexample :
    (sourceStrengthCore ⟨1, 0, 0⟩ ⟨0, 1, 0⟩ ⟨0, 0, 1⟩ ⟨0, 0, 0⟩ 0 0 0 0).2 ≠
      unsignedVolume ⟨1, 0, 0⟩ ⟨0, 1, 0⟩ ⟨0, 0, 1⟩ ⟨0, 0, 0⟩ := by
  norm_num [sourceStrengthCore, unsignedVolume, det3, det3Rows, vsub,
    abs_of_pos (show (0:ℚ) < 1/6 by norm_num)]

/-- Claim C6 as amended: the signed volume computed by the integrator is
MINUS the determinant of the 3 x 3 edge-vector matrix (p0-p3, p1-p3,
p2-p3) divided by 6; the strength output uses the absolute value of that
signed volume, but the second element of the result - the value recorded
in the parallel volume array - is the signed value itself, not the
unsigned volume. -/
theorem c6_signed_volume (p0 p1 p2 p3 : Vec3) (f0 f1 f2 f3 : ℚ) :
    (sourceStrengthCore p0 p1 p2 p3 f0 f1 f2 f3).2 =
      -(det3Rows (vsub p0 p3) (vsub p1 p3) (vsub p2 p3) / 6) ∧
    (sourceStrengthCore p0 p1 p2 p3 f0 f1 f2 f3).1 =
      |(sourceStrengthCore p0 p1 p2 p3 f0 f1 f2 f3).2| *
        (specQuadPoints.map (fun wb => wb.1 * baryInterp wb.2 f0 f1 f2 f3)).sum := by
  constructor
  · unfold sourceStrengthCore
    rw [det3_eq_det3Rows, neg_div]
  · unfold sourceStrengthCore specQuadPoints baryInterp
    simp only [List.map_cons, List.map_nil, List.sum_cons, List.sum_nil]
    congr 1
    ring

/-! ## Grid parameters, vertex indexer and cell decomposer -/

/-- The grid parameters of a mesh run: `num_s`, `num_theta`, `num_phi` are
the lengths of the three coordinate sequences, and `fullRev` is the result
of the float test `self._toroidal_extent == 2 * np.pi` that decides
whether the toroidal extent is a full revolution (lines 235 and 357). -/
structure MeshParams where
  numS : ℕ
  numTheta : ℕ
  numPhi : ℕ
  fullRev : Bool

/-- Embeds `self.verts_per_ring` (line 238): the length of
`np.linspace(0, 2*np.pi, num_theta)[:-1]`. -/
def vertsPerRing (P : MeshParams) : ℕ := P.numTheta - 1

/-- Embeds `self.verts_per_plane` (line 240): one magnetic-axis vertex plus
`len(s_list)` rings of `verts_per_ring` vertices, where
`s_list = np.linspace(0, 1, num_s)[1:]` has length `num_s - 1`. -/
def vertsPerPlane (P : MeshParams) : ℕ :=
  (P.numS - 1) * vertsPerRing P + 1

/-- The number of toroidal planes actually sampled: `num_phi`, minus one
when the extent is a full revolution and the duplicate final plane is
dropped (lines 234-236). -/
def numPlanes (P : MeshParams) : ℕ :=
  if P.fullRev then P.numPhi - 1 else P.numPhi

/-- Embeds `SourceMesh._get_vertex_id` (lines 339-371): linear vertex id from the
logical `[s_idx, theta_idx, phi_idx]` triple.  The toroidal offset wraps
to 0 on the final plane of a full revolution; a poloidal index equal to
`num_theta` is remapped to offset 1. -/
def getVertexId (P : MeshParams) (sIdx thetaIdx phiIdx : ℕ) : ℕ :=
  let maOffset :=
    if P.fullRev = true ∧ phiIdx = P.numPhi - 1 then 0
    else phiIdx * vertsPerPlane P
  let sOffset := sIdx * vertsPerRing P
  let thetaOffset := if thetaIdx = P.numTheta then 1 else thetaIdx
  maOffset + sOffset + thetaOffset

/-- Embeds `SourceMesh._create_tets_from_wedge` (lines 434-484): the six wedge
corners from the stencil `[0,0,0], [0,t,0], [0,t+1,0], [0,0,1], [0,t,1],
[0,t+1,1]` added to `[0, 0, phi_idx]` (stencil rows are
`[s, theta, phi]`), then one of the two canonical 3-tetrahedron ordering
tables according to `alt_flag`. -/
def wedgeTets (P : MeshParams) (alt : Bool) (thetaIdx phiIdx : ℕ) : List Tet :=
  let i0 := getVertexId P 0 0 phiIdx
  let i1 := getVertexId P 0 thetaIdx phiIdx
  let i2 := getVertexId P 0 (thetaIdx + 1) phiIdx
  let i3 := getVertexId P 0 0 (phiIdx + 1)
  let i4 := getVertexId P 0 thetaIdx (phiIdx + 1)
  let i5 := getVertexId P 0 (thetaIdx + 1) (phiIdx + 1)
  if alt then
    [(i0, i2, i1, i3), (i1, i3, i5, i4), (i1, i3, i2, i5)]
  else
    [(i0, i2, i1, i3), (i3, i2, i4, i5), (i3, i2, i1, i4)]

/-- Embeds `SourceMesh._create_tets_from_hex` (lines 373-432): the eight
hexahedron corners from the stencil `[0,0,0], [1,0,0], [1,1,0], [0,1,0],
[0,0,1], [1,0,1], [1,1,1], [0,1,1]` added to
`[s_idx, theta_idx, phi_idx]`, then one of the two canonical
5-tetrahedron ordering tables according to `alt_flag`. -/
def hexTets (P : MeshParams) (alt : Bool) (sIdx thetaIdx phiIdx : ℕ) : List Tet :=
  let i0 := getVertexId P sIdx thetaIdx phiIdx
  let i1 := getVertexId P (sIdx + 1) thetaIdx phiIdx
  let i2 := getVertexId P (sIdx + 1) (thetaIdx + 1) phiIdx
  let i3 := getVertexId P sIdx (thetaIdx + 1) phiIdx
  let i4 := getVertexId P sIdx thetaIdx (phiIdx + 1)
  let i5 := getVertexId P (sIdx + 1) thetaIdx (phiIdx + 1)
  let i6 := getVertexId P (sIdx + 1) (thetaIdx + 1) (phiIdx + 1)
  let i7 := getVertexId P sIdx (thetaIdx + 1) (phiIdx + 1)
  if alt then
    [(i0, i2, i1, i5), (i0, i3, i2, i7), (i0, i7, i5, i4),
     (i7, i2, i5, i6), (i0, i2, i5, i7)]
  else
    [(i0, i3, i1, i4), (i1, i3, i2, i6), (i1, i4, i6, i5),
     (i3, i6, i4, i7), (i1, i3, i6, i4)]

/-- One structured cell of a toroidal slab: either a magnetic-axis wedge
at a poloidal position, or an outer hexahedron at a (flux ring, poloidal
position) pair. -/
inductive Cell where
  | wedge (thetaIdx : ℕ)
  | hex (sIdx thetaIdx : ℕ)

/-- Tetrahedra emitted for one cell under the current alternation flag. -/
def cellTets (P : MeshParams) (alt : Bool) (phiIdx : ℕ) : Cell → List Tet
  | Cell.wedge thetaIdx => wedgeTets P alt thetaIdx phiIdx
  | Cell.hex sIdx thetaIdx => hexTets P alt sIdx thetaIdx phiIdx

/-- The cells of one toroidal slab in the order `create_mesh` visits them
(lines 497-505): wedges for `theta_idx in range(1, num_theta)`, then
hexahedra for `s_idx in range(num_s - 2)`, `theta_idx in
range(1, num_theta)`. -/
def slabCells (P : MeshParams) : List Cell :=
  (List.range' 1 (P.numTheta - 1)).map Cell.wedge
    ++ (List.range (P.numS - 2)).flatMap
        (fun sIdx => (List.range' 1 (P.numTheta - 1)).map (Cell.hex sIdx))

/-- Runs the cells of a slab in order, starting from alternation flag
`alt` and negating the flag after every cell (`self.alt_flag =
not self.alt_flag`, lines 499 and 505), collecting the emitted
tetrahedra. -/
def foldCells (P : MeshParams) (phiIdx : ℕ) : List Cell → Bool → List Tet
  | [], _ => []
  | c :: rest, alt => cellTets P alt phiIdx c ++ foldCells P phiIdx rest (!alt)

/-- The alternation flag consumed by each successive cell when the run
starts from flag `alt`. -/
def cellFlags : List Cell → Bool → List Bool
  | [], _ => []
  | _ :: rest, alt => alt :: cellFlags rest (!alt)

/-- The flag sequence of one toroidal slab: `create_mesh` sets
`self.alt_flag = True` at the beginning of each slab (line 495). -/
def slabFlags (P : MeshParams) : List Bool := cellFlags (slabCells P) true

/-- Embeds `SourceMesh.create_mesh` (lines 486-505): for each toroidal slab
`phi_idx in range(num_phi - 1)`, reset the alternation flag to `True` and
run the slab's cells, collecting all tetrahedra in creation order. -/
def createMeshTets (P : MeshParams) : List Tet :=
  (List.range (P.numPhi - 1)).flatMap
    (fun phiIdx => foldCells P phiIdx (slabCells P) true)

/-- The parallel strengths list: `_create_tet` (lines 318-333) computes
`_source_strength` for each created tetrahedron and appends the result to
`self.strengths`, in creation order. -/
def createMeshStrengths (P : MeshParams) (coords : ℕ → Vec3) (coordsS : ℕ → ℚ)
    (density : ℚ → ℚ) : List ℚ :=
  (createMeshTets P).map (fun t => (sourceStrength coords coordsS density t).1)

/-! ## Tetrahedron counting (claim C1) -/

/-- Number of tetrahedra each cell kind decomposes into. -/
def cellTetCount : Cell → ℕ
  | Cell.wedge _ => 3
  | Cell.hex _ _ => 5

lemma wedgeTets_length (P : MeshParams) (alt : Bool) (thetaIdx phiIdx : ℕ) :
    (wedgeTets P alt thetaIdx phiIdx).length = 3 := by
  cases alt <;> simp [wedgeTets]

lemma hexTets_length (P : MeshParams) (alt : Bool) (sIdx thetaIdx phiIdx : ℕ) :
    (hexTets P alt sIdx thetaIdx phiIdx).length = 5 := by
  cases alt <;> simp [hexTets]

lemma cellTets_length (P : MeshParams) (alt : Bool) (phiIdx : ℕ) (c : Cell) :
    (cellTets P alt phiIdx c).length = cellTetCount c := by
  cases c <;> simp [cellTets, cellTetCount, wedgeTets_length, hexTets_length]

lemma sum_map_const {α : Type} (l : List α) (c : ℕ) :
    (l.map (fun _ => c)).sum = l.length * c := by
  induction l with
  | nil => simp
  | cons a tl ih => simp [ih, Nat.succ_mul, Nat.add_comm]

lemma foldCells_length (P : MeshParams) (phiIdx : ℕ) :
    ∀ (cells : List Cell) (alt : Bool),
      (foldCells P phiIdx cells alt).length = (cells.map cellTetCount).sum
  | [], _ => rfl
  | c :: rest, alt => by
    simp [foldCells, cellTets_length, foldCells_length P phiIdx rest (!alt)]

lemma sum_flatMap_nat {α : Type} (l : List α) (f : α → List ℕ) :
    (l.flatMap f).sum = (l.map (fun a => (f a).sum)).sum := by
  induction l with
  | nil => rfl
  | cons a tl ih => simp [List.flatMap_cons, List.sum_append, ih]

lemma slabCells_tet_sum (P : MeshParams) :
    ((slabCells P).map cellTetCount).sum =
      (P.numTheta - 1) * 3 + (P.numS - 2) * ((P.numTheta - 1) * 5) := by
  unfold slabCells
  simp only [List.map_append, List.sum_append, List.map_map, List.map_flatMap,
    Function.comp_def, cellTetCount, List.map_const', List.length_map]
  rw [sum_flatMap_nat]
  simp only [List.sum_replicate, smul_eq_mul, List.length_range', List.map_const',
    List.length_range]

lemma createMeshTets_length (P : MeshParams) :
    (createMeshTets P).length =
      (P.numPhi - 1) * ((P.numTheta - 1) * 3 + (P.numS - 2) * ((P.numTheta - 1) * 5)) := by
  unfold createMeshTets
  rw [List.length_flatMap]
  simp only [Function.comp_def]
  have h : (List.range (P.numPhi - 1)).map
      (fun phiIdx => (foldCells P phiIdx (slabCells P) true).length) =
      (List.range (P.numPhi - 1)).map
        (fun _ => (P.numTheta - 1) * 3 + (P.numS - 2) * ((P.numTheta - 1) * 5)) := by
    apply List.map_congr_left
    intro phiIdx _
    rw [foldCells_length, slabCells_tet_sum]
  rw [h, List.map_const', List.sum_replicate, smul_eq_mul, List.length_range]

/-- Claim C1 counterexample: for the full-revolution grid with
`num_s = 3`, `num_theta = 3`, `num_phi = 3`, the claim's formula (with
`toroidal_planes = toroidal_count - 1 = numPlanes` for a full revolution)
predicts `3*2*1 + 5*1*2*1 = 16` tetrahedra, but `create_mesh` iterates
over `range(num_phi - 1) = 2` toroidal slabs and produces 32. -/
theorem c1_counterexample :
    (createMeshTets ⟨3, 3, 3, true⟩).length ≠
      3 * (3 - 1) * (numPlanes ⟨3, 3, 3, true⟩ - 1) +
        5 * (3 - 2) * ((3 - 1) * (numPlanes ⟨3, 3, 3, true⟩ - 1)) := by
  decide

/-- Claim C1 as amended: cell decomposition emits exactly 3 tetrahedra per
wedge cell and exactly 5 per hexahedron cell, and the total number of
tetrahedra equals
`3*(poloidal_count-1)*(toroidal_count-1)
  + 5*(flux_count-2)*(poloidal_count-1)*(toroidal_count-1)`
for BOTH partial and full revolutions: the number of toroidal slabs is
`toroidal_count - 1` in either case, since `create_mesh` always iterates
`phi_idx in range(num_phi - 1)`. -/
theorem c1_tet_count (P : MeshParams) :
    (∀ alt thetaIdx phiIdx, (wedgeTets P alt thetaIdx phiIdx).length = 3) ∧
    (∀ alt sIdx thetaIdx phiIdx, (hexTets P alt sIdx thetaIdx phiIdx).length = 5) ∧
    (createMeshTets P).length =
      3 * ((P.numTheta - 1) * (P.numPhi - 1)) +
        5 * ((P.numS - 2) * ((P.numTheta - 1) * (P.numPhi - 1))) := by
  refine ⟨wedgeTets_length P, hexTets_length P, ?_⟩
  rw [createMeshTets_length]
  generalize P.numPhi - 1 = a
  generalize P.numTheta - 1 = b
  generalize P.numS - 2 = c
  ring

/-! ## Alternation of the canonical ordering tables (claim C7) -/

lemma cellFlags_getD (cells : List Cell) :
    ∀ (alt : Bool) (n : ℕ), n < cells.length →
      (cellFlags cells alt).getD n false = if n % 2 = 0 then alt else !alt := by
  induction cells with
  | nil => intro alt n h; simp at h
  | cons c rest ih =>
    intro alt n h
    cases n with
    | zero => simp [cellFlags]
    | succ n =>
      have hn : n < rest.length := by
        simpa using Nat.lt_of_succ_lt_succ (by simpa using h)
      simp only [cellFlags, List.getD_cons_succ]
      rw [ih (!alt) n hn]
      rcases Nat.mod_two_eq_zero_or_one n with hp | hp <;>
        simp [Nat.add_mod, hp]

lemma foldCells_eq_zip (P : MeshParams) (phiIdx : ℕ) :
    ∀ (cells : List Cell) (alt : Bool),
      foldCells P phiIdx cells alt =
        (cells.zip (cellFlags cells alt)).flatMap
          (fun cf => cellTets P cf.2 phiIdx cf.1)
  | [], _ => rfl
  | c :: rest, alt => by
    simp only [foldCells, cellFlags, List.zip_cons_cons, List.flatMap_cons]
    rw [foldCells_eq_zip P phiIdx rest (!alt)]

/-- Claim C7: within every toroidal slab the decomposer pairs the n-th
cell (wedge or hexahedron alike) with alternation flag true exactly when
n is even, strictly alternating the two canonical ordering tables from
one cell to the next; and every slab of `create_mesh` runs its cells from
the same flag sequence `slabFlags`, which starts from the fixed flag
`True` (the reset at the beginning of each slab). -/
theorem c7_alternation (P : MeshParams) :
    createMeshTets P =
      (List.range (P.numPhi - 1)).flatMap (fun phiIdx =>
        ((slabCells P).zip (slabFlags P)).flatMap
          (fun cf => cellTets P cf.2 phiIdx cf.1)) ∧
    ∀ n, n < (slabCells P).length →
      (slabFlags P).getD n false = if n % 2 = 0 then true else false := by
  constructor
  · unfold createMeshTets slabFlags
    congr 1
    funext phiIdx
    exact foldCells_eq_zip P phiIdx (slabCells P) true
  · intro n hn
    rw [slabFlags, cellFlags_getD (slabCells P) true n hn]
    rcases Nat.mod_two_eq_zero_or_one n with hp | hp <;> simp [hp]

/-- Witness for claim C7 at the concrete grid `num_s = 3`, `num_theta = 3`,
`num_phi = 3`, partial revolution: the second cell of a slab uses the
non-starting ordering table. -/
theorem c7_alternation_witness :
    (slabFlags ⟨3, 3, 3, false⟩).getD 1 false = if 1 % 2 = 0 then true else false :=
  (c7_alternation ⟨3, 3, 3, false⟩).2 1 (by decide)

/-! ## Zero density field (claim C8) -/

lemma sourceStrengthCore_zero (p0 p1 p2 p3 : Vec3) :
    (sourceStrengthCore p0 p1 p2 p3 0 0 0 0).1 = 0 := by
  simp [sourceStrengthCore]

/-- Claim C8: for every generated mesh, if the source-density field (the
composition of the plasma-conditions and reaction-rate functions)
evaluates to 0 at every flux label, then the integrated strength of every
tetrahedron in the parallel strengths list is exactly 0. -/
theorem c8_zero_density (P : MeshParams) (coords : ℕ → Vec3) (coordsS : ℕ → ℚ)
    (density : ℚ → ℚ) (h : ∀ s, density s = 0) (i : ℕ) :
    (createMeshStrengths P coords coordsS density).getD i 0 = 0 := by
  have hall : ∀ x ∈ createMeshStrengths P coords coordsS density, x = 0 := by
    intro x hx
    unfold createMeshStrengths at hx
    rcases List.mem_map.mp hx with ⟨t, _, ht⟩
    rw [← ht]
    unfold sourceStrength
    rw [h, h, h, h]
    exact sourceStrengthCore_zero _ _ _ _
  rcases Nat.lt_or_ge i (createMeshStrengths P coords coordsS density).length with hi | hi
  · rw [List.getD_eq_getElem _ _ hi]
    exact hall _ (List.getElem_mem hi)
  · exact List.getD_eq_default _ _ hi

/-- Witness for claim C8: a concrete run on the grid `num_s = 3`,
`num_theta = 2`, `num_phi = 2` with the identically-zero density field
has first tetrahedron strength 0. -/
theorem c8_zero_density_witness :
    (createMeshStrengths ⟨3, 2, 2, false⟩ (fun _ => ⟨0, 0, 0⟩) (fun _ => 0)
      (fun _ => 0)).getD 0 0 = 0 :=
  c8_zero_density ⟨3, 2, 2, false⟩ (fun _ => ⟨0, 0, 0⟩) (fun _ => 0)
    (fun _ => 0) (fun _ => rfl) 0

/-! ## Validating property setters (claims C4, C10) -/

/-- Embeds `np.deg2rad`: degrees to radians. -/
noncomputable def deg2rad (x : ℝ) : ℝ := x * (Real.pi / 180)

/-- The grid-holding instance attributes touched by the three validating
setters; `none` models an attribute not yet assigned. -/
structure GridAttrs where
  cfsGrid : Option (List ℝ)
  poloidalGrid : Option (List ℝ)
  toroidalGrid : Option (List ℝ)

/-- The `cfs_grid` setter (lines 143-149): first assigns
`self._cfs_grid = array`, then raises a ValueError iff
`self._cfs_grid[0] != 0 or self._cfs_grid[-1] != 1`.  Returns the state
after the body ran together with the raise condition.  (The grids the
claims quantify over are nonempty, so `headD`/`getLastD` coincide with
the indexing `[0]`/`[-1]`.) -/
def cfsGridSetter (st : GridAttrs) (array : List ℝ) : GridAttrs × Prop :=
  let st1 := { st with cfsGrid := some array }
  let g := st1.cfsGrid.getD []
  (st1, g.headD 0 ≠ 0 ∨ g.getLastD 0 ≠ 1)

/-- The `poloidal_grid` setter (lines 155-164): first assigns
`self._poloidal_grid = np.deg2rad(array)`, then raises a ValueError iff
`self._poloidal_grid[-1] - self._poloidal_grid[0] != 360.0` - note the
comparison of a radian span against the literal 360. -/
noncomputable def poloidalGridSetter (st : GridAttrs) (array : List ℝ) :
    GridAttrs × Prop :=
  let st1 := { st with poloidalGrid := some (array.map deg2rad) }
  let g := st1.poloidalGrid.getD []
  (st1, g.getLastD 0 - g.headD 0 ≠ 360)

/-- The `toroidal_grid` setter (lines 170-179): first assigns
`self._toroidal_grid = np.deg2rad(array)`, then raises a ValueError iff
`self._toroidal_grid[-1] - self._toroidal_grid[0] > 360.0` - again a
radian span compared against the literal 360. -/
noncomputable def toroidalGridSetter (st : GridAttrs) (array : List ℝ) :
    GridAttrs × Prop :=
  let st1 := { st with toroidalGrid := some (array.map deg2rad) }
  let g := st1.toroidalGrid.getD []
  (st1, g.getLastD 0 - g.headD 0 > 360)

/-- Claim C4 is wrong about the code (the code is the bug): the poloidal
grid `[0, 90, 180, 270, 360]` spans exactly 360 degrees - a valid
specification - yet the `poloidal_grid` setter raises, because it
converts to radians (span `2*pi`) before comparing the span against the
literal 360.  Dually, the toroidal grid `[0, 720]` spans 720 degrees -
more than 360, so invalid - yet the `toroidal_grid` setter does not
raise, because its radian span `4*pi` is below 360. -/
theorem c4_validation_uses_wrong_units :
    (([(0:ℝ), 90, 180, 270, 360].getLastD 0 - [(0:ℝ), 90, 180, 270, 360].headD 0)
        = 360 ∧
      (poloidalGridSetter ⟨none, none, none⟩ [0, 90, 180, 270, 360]).2) ∧
    (([(0:ℝ), 720].getLastD 0 - [(0:ℝ), 720].headD 0) > 360 ∧
      ¬ (toroidalGridSetter ⟨none, none, none⟩ [0, 720]).2) := by
  have hpi : (3:ℝ) < Real.pi := Real.pi_gt_three
  have hpi2 : Real.pi < 3.15 := Real.pi_lt_d2
  refine ⟨⟨by norm_num, ?_⟩, ⟨by norm_num, ?_⟩⟩
  · show (360:ℝ) * (Real.pi / 180) - 0 * (Real.pi / 180) ≠ 360
    intro hcontra
    nlinarith
  · show ¬ ((720:ℝ) * (Real.pi / 180) - 0 * (Real.pi / 180) > 360)
    push_neg
    nlinarith

/-- Claim C10: each validating setter assigns the (angle-converted)
sequence to the object's attribute before performing its check, so
whenever the raise condition holds, the post-body object state already
holds the new, invalid grid. -/
theorem c10_assign_before_check (st : GridAttrs) (array : List ℝ) :
    ((cfsGridSetter st array).2 →
      (cfsGridSetter st array).1.cfsGrid = some array) ∧
    ((poloidalGridSetter st array).2 →
      (poloidalGridSetter st array).1.poloidalGrid = some (array.map deg2rad)) ∧
    ((toroidalGridSetter st array).2 →
      (toroidalGridSetter st array).1.toroidalGrid = some (array.map deg2rad)) :=
  ⟨fun _ => rfl, fun _ => rfl, fun _ => rfl⟩

/-- Witness for claim C10: the cfs grid `[1, 2]` violates the span check
(its first entry is not 0), and after the raising setter body the object
holds exactly that invalid grid; likewise for the poloidal grid
`[0, 360]` (radian span `2*pi` differs from the literal 360) and the
toroidal grid `[0, 100000]` (radian span above 360). -/
theorem c10_assign_before_check_witness :
    (cfsGridSetter ⟨none, none, none⟩ [1, 2]).1.cfsGrid = some [1, 2] ∧
    (poloidalGridSetter ⟨none, none, none⟩ [0, 360]).1.poloidalGrid =
      some ([(0:ℝ), 360].map deg2rad) ∧
    (toroidalGridSetter ⟨none, none, none⟩ [0, 100000]).1.toroidalGrid =
      some ([(0:ℝ), 100000].map deg2rad) := by
  have hpi : (3:ℝ) < Real.pi := Real.pi_gt_three
  have hpi2 : Real.pi < 3.15 := Real.pi_lt_d2
  refine ⟨(c10_assign_before_check ⟨none, none, none⟩ [1, 2]).1 ?_,
    (c10_assign_before_check ⟨none, none, none⟩ [0, 360]).2.1 ?_,
    (c10_assign_before_check ⟨none, none, none⟩ [0, 100000]).2.2 ?_⟩
  · show ([(1:ℝ), 2].headD 0 ≠ 0 ∨ ([(1:ℝ), 2].getLastD 0 ≠ 1))
    left
    norm_num
  · show (360:ℝ) * (Real.pi / 180) - 0 * (Real.pi / 180) ≠ 360
    intro hcontra
    nlinarith
  · show (100000:ℝ) * (Real.pi / 180) - 0 * (Real.pi / 180) > 360
    nlinarith

/-! ## Attribute usage of the class-based implementation (claim C9) -/

/-- Instance attributes assigned during `SourceMesh.__init__`
(lines 107-137).  The plain assignments are `vmec_obj`, `scale`,
`plasma_conditions`, `reaction_rate`, `strengths`, `volumes`; the
assignments through property descriptors store `_logger`, `_cfs_grid`,
`_poloidal_grid`, `_toroidal_grid`; `_create_mbc` (lines 189-215) stores
`mbc`, `source_strength_tag`, `volume_tag`. -/
def initAssignedAttrs : List String :=
  ["_logger", "vmec_obj", "_cfs_grid", "_poloidal_grid", "_toroidal_grid",
   "scale", "plasma_conditions", "reaction_rate", "strengths", "volumes",
   "mbc", "source_strength_tag", "volume_tag"]

/-- Instance attributes assigned by the remaining methods:
`create_vertices` stores `verts_per_ring`, `verts_per_plane`, `coords`,
`coords_s`, `verts` (lines 238-269); `create_mesh` stores `mesh_set` and
`alt_flag` (lines 490-505).  No other attribute is ever the target of an
assignment anywhere in the class. -/
def methodAssignedAttrs : List String :=
  ["verts_per_ring", "verts_per_plane", "coords", "coords_s", "verts",
   "mesh_set", "alt_flag"]

/-- Every instance-attribute name the class ever assigns, in any method. -/
def allAssignedAttrs : List String := initAssignedAttrs ++ methodAssignedAttrs

/-- The property descriptors defined on the class (lines 139-187), which
attribute lookup also resolves. -/
def classProperties : List String :=
  ["cfs_grid", "poloidal_grid", "toroidal_grid", "logger"]

/-- Attribute lookup on an instance whose assigned-attribute set is
`assigned` succeeds for instance attributes and class properties, and
raises AttributeError otherwise. -/
def attrResolves (assigned : List String) (name : String) : Bool :=
  assigned.contains name || classProperties.contains name

/-- Attribute reads `create_vertices` performs unconditionally, in source
order, through line 232: the log call reads `_logger` (line 226), then
`np.linspace(0, self._toroidal_extent, num=self.num_phi)` reads
`_toroidal_extent` and `num_phi` (line 228), then `num_s` (line 230) and
`num_theta` (line 232). -/
def createVerticesReads : List String :=
  ["_logger", "_toroidal_extent", "num_phi", "num_s", "num_theta"]

/-- Attribute reads `_get_vertex_id` performs unconditionally, in source
order: `verts_per_plane` (line 354), then `_toroidal_extent` (first
operand of the short-circuit conjunction on line 357). -/
def getVertexIdReads : List String :=
  ["verts_per_plane", "_toroidal_extent"]

/-- Attribute reads `create_mesh` performs unconditionally, in source
order: `_logger` (line 488), `mbc` (line 490), `mesh_set` and `verts`
(line 491), `num_phi` (line 493). -/
def createMeshReads : List String :=
  ["_logger", "mbc", "mesh_set", "verts", "num_phi"]

/-- The first attribute read of a method body that fails to resolve
against the instance state `assigned`, if any: the read at which Python
raises AttributeError. -/
def firstFailingRead (assigned reads : List String) : Option String :=
  reads.find? (fun n => !(attrResolves assigned n))

/-- Claim C9: the attributes `num_s`, `num_theta`, `num_phi` and
`_toroidal_extent` are never assigned by any method of the class-based
`SourceMesh` and are not properties, yet each of `create_vertices`,
`_get_vertex_id` and `create_mesh` unconditionally reads at least one of
them; hence on any instance state reachable by running methods of the
class (any subset of the attributes the class ever assigns), each of the
three methods hits a failing attribute read, and the class-based pipeline
can never produce a mesh. -/
theorem c9_missing_attributes :
    ("num_s" ∉ allAssignedAttrs ∧ "num_theta" ∉ allAssignedAttrs ∧
      "num_phi" ∉ allAssignedAttrs ∧ "_toroidal_extent" ∉ allAssignedAttrs ∧
      "num_s" ∉ classProperties ∧ "num_theta" ∉ classProperties ∧
      "num_phi" ∉ classProperties ∧ "_toroidal_extent" ∉ classProperties) ∧
    ∀ assigned : List String, (∀ a ∈ assigned, a ∈ allAssignedAttrs) →
      (firstFailingRead assigned createVerticesReads).isSome = true ∧
      (firstFailingRead assigned getVertexIdReads).isSome = true ∧
      (firstFailingRead assigned createMeshReads).isSome = true := by
  refine ⟨by decide, ?_⟩
  intro assigned hsub
  have hno : ∀ name : String, name ∉ allAssignedAttrs → name ∉ classProperties →
      attrResolves assigned name = false := by
    intro name h1 h2
    unfold attrResolves
    rw [Bool.or_eq_false_iff]
    constructor
    · rcases h : assigned.contains name with _ | _
      · rfl
      · exact absurd (hsub name (by simpa [List.contains_iff_exists_mem_beq,
          beq_iff_eq] using h)) h1
    · rcases h : classProperties.contains name with _ | _
      · rfl
      · exact absurd (by simpa [List.contains_iff_exists_mem_beq,
          beq_iff_eq] using h) h2
  have hfail : ∀ reads : List String, (∃ n ∈ reads, n ∉ allAssignedAttrs ∧
      n ∉ classProperties) → (firstFailingRead assigned reads).isSome = true := by
    intro reads hex
    rcases hex with ⟨n, hmem, h1, h2⟩
    unfold firstFailingRead
    rw [List.find?_isSome]
    exact ⟨n, hmem, by rw [hno n h1 h2]; rfl⟩
  refine ⟨hfail _ ⟨"_toroidal_extent", by decide, by decide, by decide⟩,
    hfail _ ⟨"_toroidal_extent", by decide, by decide, by decide⟩,
    hfail _ ⟨"num_phi", by decide, by decide, by decide⟩⟩

/-- Witness for claim C9: even on the maximal instance state, in which
every attribute the class ever assigns is present, all three methods hit
a failing attribute read. -/
theorem c9_missing_attributes_witness :
    (firstFailingRead allAssignedAttrs createVerticesReads).isSome = true ∧
    (firstFailingRead allAssignedAttrs getVertexIdReads).isSome = true ∧
    (firstFailingRead allAssignedAttrs createMeshReads).isSome = true :=
  (c9_missing_attributes).2 allAssignedAttrs (fun _ h => h)

/-! ## Grid sampler: `SourceMesh.create_vertices` (claims C2, C3) -/

/-- Embeds `np.linspace(a, b, num)`: `num` evenly spaced samples from `a` to `b`
inclusive; sample `i` is `a + (b - a) * i / (num - 1)` (for `num = 1`
the quotient is 0 and the single sample is `a`, as numpy returns). -/
noncomputable def linspace (a b : ℝ) (num : ℕ) : List ℝ :=
  (List.range num).map (fun i : ℕ => a + (b - a) * (i : ℝ) / ((num - 1 : ℕ) : ℝ))

/-- The external collaborators of `create_vertices`: the VMEC coordinate
map `vmec2xyz`, the length-unit scale factor, and the stored toroidal
extent used as the linspace endpoint (line 228). -/
structure SamplerParams where
  vmec : ℝ → ℝ → ℝ → ℝ × ℝ × ℝ
  scale : ℝ
  torExt : ℝ

/-- One row of the vertex table: the scaled Cartesian position (a row of
`self.coords`) and the flux label (the entry of `self.coords_s`). -/
structure MeshVertex where
  pos : ℝ × ℝ × ℝ
  sLabel : ℝ

instance : Inhabited MeshVertex := ⟨⟨(0, 0, 0), 0⟩⟩

/-- Scaling of a coordinate triple by the unit factor. -/
def smul3 (c : ℝ) (v : ℝ × ℝ × ℝ) : ℝ × ℝ × ℝ :=
  (c * v.1, c * v.2.1, c * v.2.2)

/-- Embeds `s_list = np.linspace(0.0, 1.0, num_s)[1:]` (line 230): the magnetic
axis value is dropped. -/
noncomputable def sList (P : MeshParams) : List ℝ :=
  (linspace 0 1 P.numS).tail

/-- Embeds `theta_list = np.linspace(0, 2*np.pi, num_theta)[:-1]` (line 232):
the repeated entry at `0 == 2*pi` is dropped. -/
noncomputable def thetaList (P : MeshParams) : List ℝ :=
  (linspace 0 (2 * Real.pi) P.numTheta).dropLast

/-- Embeds `phi_list = np.linspace(0, toroidal_extent, num_phi)` (line 228),
with the repeated final plane dropped when the extent is a full
revolution (lines 234-236). -/
noncomputable def phiList (S : SamplerParams) (P : MeshParams) : List ℝ :=
  if P.fullRev then (linspace 0 S.torExt P.numPhi).dropLast
  else linspace 0 S.torExt P.numPhi

/-- The body of the `for phi in phi_list` loop (lines 249-267): one
magnetic-axis vertex with flux label 0, then one vertex per `(s, theta)`
pair in `s_list x theta_list` order, each scaled by `self.scale`. -/
noncomputable def planeBlock (S : SamplerParams) (P : MeshParams) (phi : ℝ) :
    List MeshVertex :=
  ⟨smul3 S.scale (S.vmec 0 0 phi), 0⟩ ::
    (sList P).flatMap (fun s =>
      (thetaList P).map (fun theta => ⟨smul3 S.scale (S.vmec s theta phi), s⟩))

/-- Embeds `SourceMesh.create_vertices` (lines 217-269): the vertex table in
creation order, one plane block per sampled toroidal angle. -/
noncomputable def createVerticesTable (S : SamplerParams) (P : MeshParams) :
    List MeshVertex :=
  (phiList S P).flatMap (planeBlock S P)

lemma linspace_length (a b : ℝ) (num : ℕ) : (linspace a b num).length = num := by
  unfold linspace
  rw [List.length_map, List.length_range]

lemma sList_length (P : MeshParams) : (sList P).length = P.numS - 1 := by
  simp [sList, linspace_length]

lemma thetaList_length (P : MeshParams) : (thetaList P).length = P.numTheta - 1 := by
  simp [thetaList, linspace_length]

lemma phiList_length (S : SamplerParams) (P : MeshParams) :
    (phiList S P).length = numPlanes P := by
  unfold phiList numPlanes
  cases hf : P.fullRev <;> simp [linspace_length]

lemma planeBlock_length (S : SamplerParams) (P : MeshParams) (phi : ℝ) :
    (planeBlock S P phi).length = vertsPerPlane P := by
  unfold planeBlock vertsPerPlane vertsPerRing
  rw [List.length_cons, List.length_flatMap]
  simp only [Function.comp_def]
  have : (sList P).map (fun s => ((thetaList P).map
      (fun theta => (⟨smul3 S.scale (S.vmec s theta phi), s⟩ : MeshVertex))).length) =
      (sList P).map (fun _ => P.numTheta - 1) := by
    apply List.map_congr_left
    intro s _
    rw [List.length_map, thetaList_length]
  rw [this, List.map_const', List.sum_replicate, smul_eq_mul, sList_length]

lemma createVerticesTable_length (S : SamplerParams) (P : MeshParams) :
    (createVerticesTable S P).length = numPlanes P * vertsPerPlane P := by
  unfold createVerticesTable
  rw [List.length_flatMap]
  simp only [Function.comp_def]
  have : (phiList S P).map (fun phi => (planeBlock S P phi).length) =
      (phiList S P).map (fun _ => vertsPerPlane P) := by
    apply List.map_congr_left
    intro phi _
    exact planeBlock_length S P phi
  rw [this, List.map_const', List.sum_replicate, smul_eq_mul, phiList_length]

/-- Element `i * c + r` of a concatenation of blocks of uniform length
`c` is element `r` of block `i`. -/
lemma flatMap_getD {α β : Type} (g : α → List β) (c : ℕ) (d : β) :
    ∀ (A : List α) (i r : ℕ), (∀ a ∈ A, (g a).length = c) → r < c →
      ∀ hi : i < A.length,
      (A.flatMap g).getD (i * c + r) d = (g A[i]).getD r d := by
  intro A
  induction A with
  | nil => intro i r _ _ hi; simp at hi
  | cons a A ih =>
    intro i r hc hr hi
    rw [List.flatMap_cons]
    cases i with
    | zero =>
      have hlen : r < (g a).length := by
        rw [hc a (List.mem_cons_self a A)]; exact hr
      rw [Nat.zero_mul, Nat.zero_add, List.getD_eq_getElem?_getD,
        List.getElem?_append_left hlen, ← List.getD_eq_getElem?_getD]
      simp
    | succ i =>
      have hlen : (g a).length = c := hc a (List.mem_cons_self a A)
      have hidx : (i + 1) * c + r = (g a).length + (i * c + r) := by
        rw [hlen]; ring
      have hA : i < A.length := by
        simpa using Nat.lt_of_succ_lt_succ (by simpa using hi)
      rw [hidx, List.getD_eq_getElem?_getD,
        List.getElem?_append_right (Nat.le_add_right _ _),
        Nat.add_sub_cancel_left, ← List.getD_eq_getElem?_getD,
        ih i r (fun x hx => hc x (List.mem_cons_of_mem a hx)) hr hA]
      simp

lemma sList_getD_pos (P : MeshParams) {j : ℕ} (hj : j < P.numS - 1) :
    0 < (sList P).getD j 0 := by
  have hlen : j < (sList P).length := by rw [sList_length]; exact hj
  rw [List.getD_eq_getElem _ _ hlen]
  unfold sList at hlen ⊢
  rw [List.getElem_tail]
  unfold linspace
  rw [List.getElem_map, List.getElem_range]
  have hden : (0:ℝ) < ((P.numS - 1 : ℕ) : ℝ) := by
    have : 0 < P.numS - 1 := by omega
    exact_mod_cast this
  have hnum : (0:ℝ) < ((j + 1 : ℕ) : ℝ) := by exact_mod_cast Nat.succ_pos j
  have := div_pos (mul_pos (by norm_num : (0:ℝ) < 1 - 0) hnum) hden
  calc (0:ℝ) < (1 - 0) * ((j + 1 : ℕ) : ℝ) / ((P.numS - 1 : ℕ) : ℝ) := this
    _ = 0 + (1 - 0) * ((j + 1 : ℕ) : ℝ) / ((P.numS - 1 : ℕ) : ℝ) := by ring

lemma planeBlock_getD_succ (S : SamplerParams) (P : MeshParams) (phi : ℝ) (m : ℕ)
    (hm : m < (P.numS - 1) * (P.numTheta - 1)) :
    ((planeBlock S P phi).getD (m + 1) default).sLabel
      = (sList P).getD (m / (P.numTheta - 1)) 0 := by
  have hring : 0 < P.numTheta - 1 := by
    rcases Nat.eq_zero_or_pos (P.numTheta - 1) with h | h
    · rw [h, Nat.mul_zero] at hm; exact absurd hm (Nat.not_lt_zero m)
    · exact h
  have hj : m / (P.numTheta - 1) < P.numS - 1 :=
    (Nat.div_lt_iff_lt_mul hring).mpr (by rw [Nat.mul_comm] at hm ⊢; exact hm)
  have hjL : m / (P.numTheta - 1) < (sList P).length := by
    rw [sList_length]; exact hj
  unfold planeBlock
  rw [List.getD_cons_succ]
  conv_lhs => rw [show m = m / (P.numTheta - 1) * (P.numTheta - 1) +
    m % (P.numTheta - 1) by rw [Nat.mul_comm]
                            exact (Nat.div_add_mod m (P.numTheta - 1)).symm]
  rw [flatMap_getD _ (P.numTheta - 1) default (sList P) _ _
    (fun s _ => by rw [List.length_map, thetaList_length])
    (Nat.mod_lt m hring) hjL]
  have hmt : m % (P.numTheta - 1) < ((thetaList P).map
      (fun theta => (⟨smul3 S.scale (S.vmec ((sList P)[m / (P.numTheta - 1)])
        theta phi), (sList P)[m / (P.numTheta - 1)]⟩ : MeshVertex))).length := by
    rw [List.length_map, thetaList_length]; exact Nat.mod_lt m hring
  rw [List.getD_eq_getElem _ _ hmt, List.getElem_map, List.getD_eq_getElem _ _ hjL]

/-- Claim C2: the vertex table produced by `create_vertices` contains
exactly `toroidal_planes * ((flux_count - 1) * (poloidal_count - 1) + 1)`
vertices (with `toroidal_planes = toroidal_count` for a partial
revolution and `toroidal_count - 1` for a full one), and it has exactly
one magnetic-axis vertex per toroidal plane: within each plane block the
first entry carries flux label 0 and every other entry carries a nonzero
flux label. -/
theorem c2_vertex_count (S : SamplerParams) (P : MeshParams) :
    (createVerticesTable S P).length =
      numPlanes P * ((P.numS - 1) * (P.numTheta - 1) + 1) ∧
    ∀ i, i < numPlanes P →
      ((createVerticesTable S P).getD (i * vertsPerPlane P) default).sLabel = 0 ∧
      ∀ r, 0 < r → r < vertsPerPlane P →
        ((createVerticesTable S P).getD (i * vertsPerPlane P + r) default).sLabel
          ≠ 0 := by
  have hplane : vertsPerPlane P = (P.numS - 1) * (P.numTheta - 1) + 1 := rfl
  refine ⟨by rw [createVerticesTable_length, hplane], ?_⟩
  intro i hi
  have hiL : i < (phiList S P).length := by rw [phiList_length]; exact hi
  have hc : ∀ phi ∈ phiList S P, (planeBlock S P phi).length = vertsPerPlane P :=
    fun phi _ => planeBlock_length S P phi
  constructor
  · have h0 : (0:ℕ) < vertsPerPlane P := Nat.succ_pos _
    have hget := flatMap_getD (planeBlock S P) (vertsPerPlane P) default
      (phiList S P) i 0 hc h0 hiL
    rw [Nat.add_zero] at hget
    unfold createVerticesTable
    rw [hget]
    rfl
  · intro r hr0 hrP
    obtain ⟨m, rfl⟩ : ∃ m, r = m + 1 := ⟨r - 1, by omega⟩
    have hm : m < (P.numS - 1) * (P.numTheta - 1) := by
      rw [hplane] at hrP; omega
    have hstep := flatMap_getD (planeBlock S P) (vertsPerPlane P) default
      (phiList S P) i (m + 1) hc hrP hiL
    unfold createVerticesTable
    rw [hstep, planeBlock_getD_succ S P _ m hm]
    have hring : 0 < P.numTheta - 1 := by
      rcases Nat.eq_zero_or_pos (P.numTheta - 1) with h | h
      · rw [h, Nat.mul_zero] at hm; exact absurd hm (Nat.not_lt_zero m)
      · exact h
    have hj : m / (P.numTheta - 1) < P.numS - 1 :=
      (Nat.div_lt_iff_lt_mul hring).mpr (by rw [Nat.mul_comm] at hm ⊢; exact hm)
    exact ne_of_gt (sList_getD_pos P hj)

/-- Witness for claim C2: the concrete grid `num_s = 3`, `num_theta = 3`,
`num_phi = 2`, partial revolution, with trivial collaborators: plane 0
starts with the axis vertex (flux label 0) and its second entry has a
nonzero flux label. -/
theorem c2_vertex_count_witness :
    ((createVerticesTable ⟨fun _ _ _ => (0, 0, 0), 100, 1⟩
        ⟨3, 3, 2, false⟩).getD (0 * vertsPerPlane ⟨3, 3, 2, false⟩)
        default).sLabel = 0 ∧
    ((createVerticesTable ⟨fun _ _ _ => (0, 0, 0), 100, 1⟩
        ⟨3, 3, 2, false⟩).getD (0 * vertsPerPlane ⟨3, 3, 2, false⟩ + 1)
        default).sLabel ≠ 0 := by
  have h := (c2_vertex_count ⟨fun _ _ _ => (0, 0, 0), 100, 1⟩
    ⟨3, 3, 2, false⟩).2 0 (by norm_num [numPlanes])
  exact ⟨h.1, h.2 1 (by norm_num) (by norm_num [vertsPerPlane, vertsPerRing])⟩

/-! ## Vertex indexing bijection (claim C3) -/

/-- The logical points of one toroidal plane that the cell decomposer
references, in canonical form: the magnetic-axis point (flux index 0,
poloidal index 0) plus one point per (flux ring, poloidal ring) pair,
with flux index below `num_s - 1` and poloidal index between 1 and
`num_theta - 1`.  (Poloidal index `num_theta` and, on a full revolution,
toroidal index `num_phi - 1` are aliases of canonical points; the alias
equations are part of the claim's theorem.) -/
def planePoints (P : MeshParams) : Finset (ℕ × ℕ) :=
  insert (0, 0) ((Finset.range (P.numS - 1)) ×ˢ (Finset.Icc 1 (P.numTheta - 1)))

/-- The logical grid points used by the decomposer, as
(toroidal plane, (flux index, poloidal index)) triples. -/
def logicalPoints (P : MeshParams) : Finset (ℕ × ℕ × ℕ) :=
  (Finset.range (numPlanes P)) ×ˢ planePoints P

/-- Decoder of a linear vertex id back to its canonical logical grid
point; the explicit inverse of the vertex indexer. -/
def vertexOfId (P : MeshParams) (n : ℕ) : ℕ × ℕ × ℕ :=
  (n / vertsPerPlane P,
    if n % vertsPerPlane P = 0 then (0, 0)
    else ((n % vertsPerPlane P - 1) / (P.numTheta - 1),
          (n % vertsPerPlane P - 1) % (P.numTheta - 1) + 1))

lemma inner_lt (P : MeshParams) {j k : ℕ} (hjk : (j, k) ∈ planePoints P) :
    j * (P.numTheta - 1) + k < vertsPerPlane P := by
  rw [planePoints, Finset.mem_insert] at hjk
  unfold vertsPerPlane vertsPerRing
  rcases hjk with h | h
  · obtain ⟨rfl, rfl⟩ : j = 0 ∧ k = 0 := by
      rw [Prod.mk.injEq] at h; exact h
    simp
  · rw [Finset.mem_product, Finset.mem_range, Finset.mem_Icc] at h
    have hj := h.1
    have hk2 := h.2.2
    calc j * (P.numTheta - 1) + k
        ≤ j * (P.numTheta - 1) + (P.numTheta - 1) := Nat.add_le_add_left hk2 _
      _ = (j + 1) * (P.numTheta - 1) := (Nat.succ_mul j _).symm
      _ ≤ (P.numS - 1) * (P.numTheta - 1) := Nat.mul_le_mul_right _ hj
      _ < (P.numS - 1) * (P.numTheta - 1) + 1 := Nat.lt_succ_self _

lemma getVertexId_on_domain (P : MeshParams) (hT : 2 ≤ P.numTheta)
    {q : ℕ × ℕ × ℕ} (hq : q ∈ logicalPoints P) :
    getVertexId P q.2.1 q.2.2 q.1 =
      q.1 * vertsPerPlane P + (q.2.1 * (P.numTheta - 1) + q.2.2) := by
  obtain ⟨phi, j, k⟩ := q
  rw [logicalPoints, Finset.mem_product] at hq
  obtain ⟨hphi, hjk⟩ := hq
  rw [Finset.mem_range] at hphi
  have hk : k ≤ P.numTheta - 1 := by
    rw [planePoints, Finset.mem_insert] at hjk
    rcases hjk with h | h
    · obtain ⟨_, rfl⟩ : j = 0 ∧ k = 0 := by rw [Prod.mk.injEq] at h; exact h
      exact Nat.zero_le _
    · exact (Finset.mem_Icc.mp (Finset.mem_product.mp h).2).2
  have hcond1 : ¬ (P.fullRev = true ∧ phi = P.numPhi - 1) := by
    intro hand
    obtain ⟨hfr, hpe⟩ := hand
    rw [numPlanes, if_pos hfr] at hphi
    omega
  have hcond2 : ¬ ((k : ℕ) = P.numTheta) := by omega
  simp only [getVertexId, vertsPerRing, if_neg hcond1, if_neg hcond2]
  exact Nat.add_assoc _ _ _

lemma vertexOfId_getVertexId (P : MeshParams) (hT : 2 ≤ P.numTheta)
    {q : ℕ × ℕ × ℕ} (hq : q ∈ logicalPoints P) :
    vertexOfId P (getVertexId P q.2.1 q.2.2 q.1) = q := by
  obtain ⟨phi, j, k⟩ := q
  have hqm := hq
  rw [logicalPoints, Finset.mem_product] at hqm
  have hinner : j * (P.numTheta - 1) + k < vertsPerPlane P := inner_lt P hqm.2
  rw [getVertexId_on_domain P hT hq]
  have hplane : 0 < vertsPerPlane P := Nat.succ_pos _
  have hdiv : (phi * vertsPerPlane P + (j * (P.numTheta - 1) + k)) /
      vertsPerPlane P = phi := by
    conv_lhs => rw [Nat.mul_comm phi (vertsPerPlane P)]
    rw [Nat.mul_add_div hplane, Nat.div_eq_of_lt hinner, Nat.add_zero]
  have hmod : (phi * vertsPerPlane P + (j * (P.numTheta - 1) + k)) %
      vertsPerPlane P = j * (P.numTheta - 1) + k := by
    conv_lhs => rw [Nat.mul_comm phi (vertsPerPlane P)]
    rw [Nat.mul_add_mod, Nat.mod_eq_of_lt hinner]
  unfold vertexOfId
  rw [hdiv, hmod]
  rw [planePoints, Finset.mem_insert] at hqm
  rcases hqm.2 with h | h
  · obtain ⟨rfl, rfl⟩ : j = 0 ∧ k = 0 := by rw [Prod.mk.injEq] at h; exact h
    simp
  · rw [Finset.mem_product, Finset.mem_range, Finset.mem_Icc] at h
    dsimp only at h
    have hk1 := h.2.1
    have hk2 := h.2.2
    have hring : 0 < P.numTheta - 1 := by omega
    have hne : j * (P.numTheta - 1) + k ≠ 0 := by omega
    rw [if_neg hne]
    have hk1' : j * (P.numTheta - 1) + k - 1 = j * (P.numTheta - 1) + (k - 1) := by
      omega
    have hklt : k - 1 < P.numTheta - 1 := by omega
    have hdiv2 : (j * (P.numTheta - 1) + (k - 1)) / (P.numTheta - 1) = j := by
      conv_lhs => rw [Nat.mul_comm j (P.numTheta - 1)]
      rw [Nat.mul_add_div hring, Nat.div_eq_of_lt hklt, Nat.add_zero]
    have hmod2 : (j * (P.numTheta - 1) + (k - 1)) % (P.numTheta - 1) = k - 1 := by
      conv_lhs => rw [Nat.mul_comm j (P.numTheta - 1)]
      rw [Nat.mul_add_mod, Nat.mod_eq_of_lt hklt]
    rw [hk1', hdiv2, hmod2]
    have hk3 : k - 1 + 1 = k := by omega
    rw [hk3]

lemma vertexOfId_spec (P : MeshParams) (hT : 2 ≤ P.numTheta)
    {n : ℕ} (hn : n < numPlanes P * vertsPerPlane P) :
    vertexOfId P n ∈ logicalPoints P ∧
      getVertexId P (vertexOfId P n).2.1 (vertexOfId P n).2.2
        (vertexOfId P n).1 = n := by
  have hplane : 0 < vertsPerPlane P := Nat.succ_pos _
  have hphi : n / vertsPerPlane P < numPlanes P :=
    (Nat.div_lt_iff_lt_mul hplane).mpr hn
  have hr : n % vertsPerPlane P < vertsPerPlane P := Nat.mod_lt n hplane
  have hrplane : n % vertsPerPlane P < (P.numS - 1) * (P.numTheta - 1) + 1 := hr
  have hd : n / vertsPerPlane P * vertsPerPlane P + n % vertsPerPlane P = n := by
    rw [Nat.mul_comm]
    exact Nat.div_add_mod n _
  by_cases h0 : n % vertsPerPlane P = 0
  · have hv : vertexOfId P n = (n / vertsPerPlane P, 0, 0) := by
      unfold vertexOfId
      rw [if_pos h0]
    have hmem : vertexOfId P n ∈ logicalPoints P := by
      rw [hv, logicalPoints, Finset.mem_product]
      exact ⟨Finset.mem_range.mpr hphi, Finset.mem_insert_self _ _⟩
    refine ⟨hmem, ?_⟩
    rw [getVertexId_on_domain P hT hmem, hv]
    dsimp only
    omega
  · have hring : 0 < P.numTheta - 1 := by omega
    have hr1 : 1 ≤ n % vertsPerPlane P := Nat.pos_of_ne_zero h0
    have hr2 : n % vertsPerPlane P - 1 < (P.numS - 1) * (P.numTheta - 1) := by
      omega
    have hj : (n % vertsPerPlane P - 1) / (P.numTheta - 1) < P.numS - 1 :=
      (Nat.div_lt_iff_lt_mul hring).mpr hr2
    have hmlt : (n % vertsPerPlane P - 1) % (P.numTheta - 1) < P.numTheta - 1 :=
      Nat.mod_lt _ hring
    have hv : vertexOfId P n = (n / vertsPerPlane P,
        (n % vertsPerPlane P - 1) / (P.numTheta - 1),
        (n % vertsPerPlane P - 1) % (P.numTheta - 1) + 1) := by
      unfold vertexOfId
      rw [if_neg h0]
    have hmem : vertexOfId P n ∈ logicalPoints P := by
      rw [hv, logicalPoints, Finset.mem_product]
      dsimp only
      refine ⟨Finset.mem_range.mpr hphi, ?_⟩
      refine Finset.mem_insert_of_mem (Finset.mem_product.mpr ⟨?_, ?_⟩)
      · exact Finset.mem_range.mpr hj
      · exact Finset.mem_Icc.mpr ⟨by omega, by omega⟩
    refine ⟨hmem, ?_⟩
    rw [getVertexId_on_domain P hT hmem, hv]
    dsimp only
    have hdm : (n % vertsPerPlane P - 1) / (P.numTheta - 1) * (P.numTheta - 1) +
        (n % vertsPerPlane P - 1) % (P.numTheta - 1) = n % vertsPerPlane P - 1 := by
      rw [Nat.mul_comm]
      exact Nat.div_add_mod _ _
    omega

/-- Claim C3: on any valid grid, the vertex indexer restricted to the
canonical logical grid points (the axis point plus every (flux ring,
poloidal ring) point per plane) is a bijection onto the index range of
the vertex table produced by the grid sampler; the two wrap rules map the
alias indices (poloidal index `num_theta`, and toroidal index
`num_phi - 1` on a full revolution) onto canonical points; and the
indexing is consistent with the sampler's creation order: the table entry
at the computed id carries flux label 0 for the axis point and the
sampled flux value of ring `j` for a ring point with flux index `j`. -/
theorem c3_vertex_indexing (S : SamplerParams) (P : MeshParams)
    (hS : 2 ≤ P.numS) (hT : 2 ≤ P.numTheta) :
    Set.BijOn (fun q : ℕ × ℕ × ℕ => getVertexId P q.2.1 q.2.2 q.1)
      ↑(logicalPoints P)
      {n : ℕ | n < (createVerticesTable S P).length} ∧
    (∀ sIdx phiIdx,
      getVertexId P sIdx P.numTheta phiIdx = getVertexId P sIdx 1 phiIdx) ∧
    (P.fullRev = true → ∀ sIdx thetaIdx,
      getVertexId P sIdx thetaIdx (P.numPhi - 1) =
        getVertexId P sIdx thetaIdx 0) ∧
    (∀ q ∈ logicalPoints P,
      ((createVerticesTable S P).getD (getVertexId P q.2.1 q.2.2 q.1)
          default).sLabel =
        if q.2 = (0, 0) then 0 else (sList P).getD q.2.1 0) := by
  have hvp : vertsPerPlane P = (P.numS - 1) * (P.numTheta - 1) + 1 := rfl
  refine ⟨?_, ?_, ?_, ?_⟩
  · have hset : {n : ℕ | n < (createVerticesTable S P).length} =
        {n : ℕ | n < numPlanes P * vertsPerPlane P} := by
      rw [createVerticesTable_length]
    rw [hset]
    refine ⟨?_, ?_, ?_⟩
    · intro q hq
      have hq' : q ∈ logicalPoints P := hq
      have hqm := hq'
      rw [logicalPoints, Finset.mem_product] at hqm
      have hphi : q.1 < numPlanes P := Finset.mem_range.mp hqm.1
      have hin : q.2.1 * (P.numTheta - 1) + q.2.2 < vertsPerPlane P :=
        inner_lt P hqm.2
      simp only [Set.mem_setOf_eq]
      rw [getVertexId_on_domain P hT hq']
      calc q.1 * vertsPerPlane P + (q.2.1 * (P.numTheta - 1) + q.2.2)
          < q.1 * vertsPerPlane P + vertsPerPlane P := Nat.add_lt_add_left hin _
        _ = (q.1 + 1) * vertsPerPlane P := (Nat.succ_mul _ _).symm
        _ ≤ numPlanes P * vertsPerPlane P := Nat.mul_le_mul_right _ (by omega)
    · intro q hq q' hq' heq
      have h1 := vertexOfId_getVertexId P hT (show q ∈ logicalPoints P from hq)
      have h2 := vertexOfId_getVertexId P hT (show q' ∈ logicalPoints P from hq')
      simp only at heq
      rw [← h1, ← h2, heq]
    · intro n hn
      rw [Set.mem_setOf_eq] at hn
      obtain ⟨hmem, heq⟩ := vertexOfId_spec P hT hn
      exact ⟨vertexOfId P n, hmem, heq⟩
  · intro sIdx phiIdx
    simp [getVertexId, show ((1:ℕ) = P.numTheta) = False from by
      simp only [eq_iff_iff, iff_false]; omega]
  · intro hfr sIdx thetaIdx
    by_cases hp : (P.numPhi - 1 : ℕ) = 0
    · rw [hp]
    · simp only [getVertexId]
      rw [if_pos ⟨hfr, trivial⟩, if_neg (show ¬ (P.fullRev = true ∧
          (0:ℕ) = P.numPhi - 1) from fun hand => hp hand.2.symm),
        Nat.zero_mul]
  · intro q hq
    obtain ⟨phi, j, k⟩ := q
    have hqm := hq
    rw [logicalPoints, Finset.mem_product] at hqm
    dsimp only at hqm
    have hphi : phi < numPlanes P := Finset.mem_range.mp hqm.1
    have hiL : phi < (phiList S P).length := by rw [phiList_length]; exact hphi
    have hc : ∀ x ∈ phiList S P, (planeBlock S P x).length = vertsPerPlane P :=
      fun x _ => planeBlock_length S P x
    rw [getVertexId_on_domain P hT hq]
    dsimp only
    have hjk := hqm.2
    rw [planePoints, Finset.mem_insert] at hjk
    rcases hjk with h | h
    · obtain ⟨rfl, rfl⟩ : j = 0 ∧ k = 0 := by rw [Prod.mk.injEq] at h; exact h
      rw [if_pos rfl]
      simp only [Nat.zero_mul, Nat.zero_add, Nat.add_zero]
      have hget := flatMap_getD (planeBlock S P) (vertsPerPlane P) default
        (phiList S P) phi 0 hc (Nat.succ_pos _) hiL
      rw [Nat.add_zero] at hget
      unfold createVerticesTable
      rw [hget]
      rfl
    · rw [Finset.mem_product, Finset.mem_range, Finset.mem_Icc] at h
      have hj := h.1
      have hk1 := h.2.1
      have hk2 := h.2.2
      have hkne : ¬ ((j, k) = ((0:ℕ), (0:ℕ))) := by
        intro hand; rw [Prod.mk.injEq] at hand; omega
      rw [if_neg hkne]
      have hring : 0 < P.numTheta - 1 := by omega
      have hin : j * (P.numTheta - 1) + k < vertsPerPlane P :=
        inner_lt P hqm.2
      rw [hvp] at hin
      have hmk : j * (P.numTheta - 1) + k = (j * (P.numTheta - 1) + (k - 1)) + 1 := by
        omega
      have hm : j * (P.numTheta - 1) + (k - 1) <
          (P.numS - 1) * (P.numTheta - 1) := by omega
      rw [hmk]
      have hget := flatMap_getD (planeBlock S P) (vertsPerPlane P) default
        (phiList S P) phi (j * (P.numTheta - 1) + (k - 1) + 1) hc
        (by rw [hvp]; omega) hiL
      unfold createVerticesTable
      rw [hget, planeBlock_getD_succ S P _ _ hm]
      have hd : (j * (P.numTheta - 1) + (k - 1)) / (P.numTheta - 1) = j := by
        conv_lhs => rw [Nat.mul_comm j (P.numTheta - 1)]
        rw [Nat.mul_add_div hring, Nat.div_eq_of_lt (by omega), Nat.add_zero]
      rw [hd]

/-- Witness for claim C3: the concrete valid grid `num_s = 2`,
`num_theta = 2`, `num_phi = 2`, partial revolution, with trivial
collaborators. -/
theorem c3_vertex_indexing_witness :
    Set.BijOn
      (fun q : ℕ × ℕ × ℕ =>
        getVertexId ⟨2, 2, 2, false⟩ q.2.1 q.2.2 q.1)
      ↑(logicalPoints ⟨2, 2, 2, false⟩)
      {n : ℕ | n < (createVerticesTable ⟨fun _ _ _ => (0, 0, 0), 100, 1⟩
        ⟨2, 2, 2, false⟩).length} ∧
    (∀ sIdx phiIdx,
      getVertexId ⟨2, 2, 2, false⟩ sIdx (MeshParams.numTheta ⟨2, 2, 2, false⟩)
          phiIdx = getVertexId ⟨2, 2, 2, false⟩ sIdx 1 phiIdx) ∧
    (MeshParams.fullRev ⟨2, 2, 2, false⟩ = true → ∀ sIdx thetaIdx,
      getVertexId ⟨2, 2, 2, false⟩ sIdx thetaIdx
          (MeshParams.numPhi ⟨2, 2, 2, false⟩ - 1) =
        getVertexId ⟨2, 2, 2, false⟩ sIdx thetaIdx 0) ∧
    (∀ q ∈ logicalPoints ⟨2, 2, 2, false⟩,
      ((createVerticesTable ⟨fun _ _ _ => (0, 0, 0), 100, 1⟩
          ⟨2, 2, 2, false⟩).getD
          (getVertexId ⟨2, 2, 2, false⟩ q.2.1 q.2.2 q.1) default).sLabel =
        if q.2 = (0, 0) then 0
        else (sList ⟨2, 2, 2, false⟩).getD q.2.1 0) :=
  c3_vertex_indexing ⟨fun _ _ _ => (0, 0, 0), 100, 1⟩ ⟨2, 2, 2, false⟩
    (by decide) (by decide)
